import Mathlib

/-!
# Chat relay: the server's message handler and the client's command reader

A shallow embedding of `src/server.js` (the `users` registry and the
`message` handler installed on every connection) and of the terminal input
handler of `src/client.js`, followed by the properties proved about them.

JavaScript values are represented by what the handler can observe of them:

* a connection object (`ws`) is its handle, a natural number; two handles are
  equal exactly when `===` holds of the objects;
* a field of the decoded envelope is a string, `undefined`, or some other JSON
  value carried with the result of `ToString` on it;
* `users` is the plain object created by `{}`: its own properties in the
  order `for ... in` visits them, and its prototype, which is `Object.prototype`
  until an assignment to the key `__proto__` replaces it.
-/

namespace ChatRelay

/-! ## Values -/

/-- Handle of a WebSocket connection object. -/
abbrev Conn := Nat

/-- A field read from the decoded envelope (`data.type`, `data.username`, ...). -/
inductive Field where
  /-- The property is absent. -/
  | undefined
  /-- A JSON string. -/
  | str (s : String)
  /-- Any other JSON value (null, boolean, number, array, object) with the
  outcome of `ToString` on it; `none` when `ToString` throws a `TypeError`
  (an object whose own `toString` or `valueOf` is not callable). -/
  | other (shown : Option String)
  deriving DecidableEq, Repr

/-- JavaScript `ToString`, as used by template literals and property keys. -/
def Field.toStr : Field → Option String
  | .undefined => some "undefined"
  | .str s => some s
  | .other shown => shown

/-- The properties of the decoded object that the handler reads. -/
structure Envelope where
  type : Field
  username : Field
  to_ : Field
  from_ : Field
  text : Field
  deriving DecidableEq, Repr

/-- Result of `JSON.parse(msg)`. -/
inductive Decoded where
  /-- The frame is not valid JSON: `JSON.parse` throws a `SyntaxError`. -/
  | syntaxError
  /-- The JSON literal `null`. -/
  | null
  /-- A number, boolean, string or array: reading `type`, `username`, `to`,
  `from` or `text` from it yields `undefined`. -/
  | nonObject
  /-- A JSON object. -/
  | object (data : Envelope)
  deriving DecidableEq, Repr

/-- Exceptions the handler can end with. -/
inductive JsError where
  | syntaxError
  | typeError
  /-- The `send` method of connection `c` threw. -/
  | sendError (c : Conn)
  deriving DecidableEq, Repr

/-- What `users[key]` can evaluate to. -/
inductive Val where
  | undefined
  /-- A connection object. -/
  | ws (c : Conn)
  /-- `Object.prototype` itself (the initial value of `users.__proto__`). -/
  | objectPrototype
  /-- A function inherited from `Object.prototype`. -/
  | builtin (name : String)
  /-- A method of a connection object, seen through `users` once a connection
  has become its prototype. -/
  | wsMethod (name : String)
  deriving DecidableEq, Repr

/-- Outcome of a property read on `users`. -/
inductive Lookup where
  | found (v : Val)
  /-- The read reaches the members of a connection object, which the `ws`
  library defines; the repository's sources do not determine the value. -/
  | libraryDefined
  deriving DecidableEq, Repr

/-! ## The registry `users` -/

/-- The object `users`. -/
structure Users where
  /-- Own properties in enumeration order; every stored value is a connection,
  since the only assignment in the source stores `ws`. -/
  own : List (String × Conn)
  /-- The prototype: `none` is `Object.prototype`, `some c` the connection object `c`
  (set by `users["__proto__"] = ws`). -/
  proto : Option Conn
  deriving DecidableEq, Repr

/-- State created by `const users = {}`. -/
def Users.empty : Users := ⟨[], none⟩

/-- Function-valued properties of `Object.prototype`. -/
def objectPrototypeMethods : List String :=
  ["constructor", "__defineGetter__", "__defineSetter__", "hasOwnProperty",
   "__lookupGetter__", "__lookupSetter__", "isPrototypeOf", "propertyIsEnumerable",
   "toString", "valueOf", "toLocaleString"]

/-- Methods of a connection object that the source itself calls
(`ws.on(...)`, `to.send(...)`). -/
def wsMethods : List String := ["send", "on"]

/-- Own property lookup. -/
def ownGet : List (String × Conn) → String → Option Conn
  | [], _ => none
  | (k, c) :: rest, key => if k = key then some c else ownGet rest key

/-- Evaluation of `users[key]`: own properties first, then the prototype chain. -/
def Users.get (users : Users) (key : String) : Lookup :=
  match ownGet users.own key with
  | some c => .found (.ws c)
  | none =>
    match users.proto with
    | none =>
      if key = "__proto__" then .found .objectPrototype
      else if key ∈ objectPrototypeMethods then .found (.builtin key)
      else .found .undefined
    | some p =>
      if key = "__proto__" then .found (.ws p)
      else if key ∈ wsMethods then .found (.wsMethod key)
      else .libraryDefined

/-- Value of a string of decimal digits; `none` when a character is not a digit. -/
def decimalValue : List Char → Nat → Option Nat
  | [], acc => some acc
  | c :: cs, acc =>
    if 48 ≤ c.toNat ∧ c.toNat ≤ 57 then decimalValue cs (10 * acc + (c.toNat - 48)) else none

/-- Array index denoted by a property key: the canonical decimal form (no
leading zero) of a number below `2^32 - 1`. Such keys are enumerated first,
in numeric order; all other keys follow in creation order. -/
def arrayIndex (key : String) : Option Nat :=
  match key.data with
  | [] => none
  | c :: cs =>
    if c = '0' ∧ cs ≠ [] then none
    else
      match decimalValue (c :: cs) 0 with
      | some n => if n < 4294967295 then some n else none
      | none => none

/-- Whether a new key `k` is enumerated before the existing key `k2`. -/
def enumeratedBefore (k k2 : String) : Bool :=
  match arrayIndex k, arrayIndex k2 with
  | some n, some n2 => n < n2
  | some _, none => true
  | none, _ => false

/-- Replace the value of an existing own property. -/
def ownReplace (key : String) (c : Conn) : List (String × Conn) → List (String × Conn)
  | [] => []
  | (k, v) :: rest => if k = key then (k, c) :: rest else (k, v) :: ownReplace key c rest

/-- Create a new own property at its place in the enumeration order. -/
def ownInsert (key : String) (c : Conn) : List (String × Conn) → List (String × Conn)
  | [] => [(key, c)]
  | (k, v) :: rest =>
    if enumeratedBefore key k then (key, c) :: (k, v) :: rest
    else (k, v) :: ownInsert key c rest

/-- Evaluation of `users[key] = ws`. `none` when the effect depends on the
members of the connection object that has become the prototype. -/
def Users.set (users : Users) (key : String) (ws : Conn) : Option Users :=
  match ownGet users.own key with
  | some _ => some { users with own := ownReplace key ws users.own }
  | none =>
    if key = "__proto__" then some { users with proto := some ws }
    else
      match users.proto with
      | none => some { users with own := ownInsert key ws users.own }
      | some _ => none

/-! ## The message handler -/

/-- How a run of the handler ends. -/
inductive Completion where
  | returned
  | threw (e : JsError)
  /-- The handler reached a step that depends on the members of a connection
  object used as the prototype of `users`. -/
  | libraryDefined
  deriving DecidableEq, Repr

/-- Effects of one run of the handler. -/
structure Outcome where
  /-- The registry afterwards. -/
  users : Users
  /-- Calls of `send` on connection objects, in order: receiver and payload. -/
  sent : List (Conn × String)
  /-- Lines written by `console.log`. -/
  logs : List String
  completion : Completion
  deriving DecidableEq, Repr

/-- Template literal of the private branch. -/
def privateLine (data : Envelope) : Option String :=
  match data.from_.toStr, data.text.toStr with
  | some f, some t => some (f ++ " -> " ++ t)
  | _, _ => none

/-- Template literal of the broadcast branch. -/
def broadcastLine (data : Envelope) : Option String :=
  match data.from_.toStr, data.text.toStr with
  | some f, some t => some (f ++ " (to all) " ++ t ++ " ")
  | _, _ => none

/-- The body of `for (const user in users)` over the remaining own keys: returns
the sends performed and how the loop ends. -/
def broadcastLoop (sendFails : Conn → Bool) (users : Users) (ws : Conn) (data : Envelope) :
    List String → List (Conn × String) × Completion
  | [] =>
    match users.proto with
    | none => ([], .returned)
    | some _ => ([], .libraryDefined)
  | user :: rest =>
    match users.get user with
    | .found (.ws d) =>
      if d ≠ ws then
        match broadcastLine data with
        | none => ([], .threw .typeError)
        | some line =>
          if sendFails d then ([(d, line)], .threw (.sendError d))
          else
            let r := broadcastLoop sendFails users ws data rest
            ((d, line) :: r.1, r.2)
      else broadcastLoop sendFails users ws data rest
    | .found _ => ([], .threw .typeError)
    | .libraryDefined => ([], .libraryDefined)

/-- The `message` handler of connection `ws`, run on the result of
`JSON.parse(msg)`. `sendFails c` tells whether `send` on connection `c` throws.
The source tests `data.type` in three successive `if` statements; the join
branch does not return, but after it the two later tests fail, since
`data.type` is `"join"`, so the tests are written here as one chain. -/
def onMessage (sendFails : Conn → Bool) (users : Users) (ws : Conn) (msg : Decoded) : Outcome :=
  match msg with
  | .syntaxError => ⟨users, [], [], .threw .syntaxError⟩
  | .null => ⟨users, [], [], .threw .typeError⟩
  | .nonObject => ⟨users, [], [], .returned⟩
  | .object data =>
    if data.type = .str "join" then
      match data.username.toStr with
      | none => ⟨users, [], [], .threw .typeError⟩
      | some name =>
        match users.set name ws with
        | none => ⟨users, [], [], .libraryDefined⟩
        | some users2 => ⟨users2, [], [name ++ " joined"], .returned⟩
    else if data.type = .str "private" then
      match data.to_.toStr with
      | none => ⟨users, [], [], .threw .typeError⟩
      | some key =>
        match users.get key with
        | .libraryDefined => ⟨users, [], [], .libraryDefined⟩
        | .found .undefined => ⟨users, [], [], .returned⟩
        | .found (.ws d) =>
          match privateLine data with
          | none => ⟨users, [], [], .threw .typeError⟩
          | some line =>
            ⟨users, [(d, line)], [], if sendFails d then .threw (.sendError d) else .returned⟩
        | .found _ => ⟨users, [], [], .threw .typeError⟩
    else if data.type = .str "broadcast" then
      let r := broadcastLoop sendFails users ws data (users.own.map Prod.fst)
      ⟨users, r.1, [], r.2⟩
    else ⟨users, [], [], .returned⟩

/-- The sends of a sequence of frames, each arriving on its own connection; the
registry left by one run of the handler is the one the next run starts from. -/
def runSent (sendFails : Conn → Bool) : Users → List (Conn × Decoded) → List (Conn × String)
  | _, [] => []
  | users, (ws, msg) :: rest =>
    let o := onMessage sendFails users ws msg
    o.sent ++ runSent sendFails o.users rest

/-- The decoded envelope `{type: "join", username: I}`. -/
def joinEnvelope (I : String) : Decoded :=
  .object ⟨.str "join", .str I, .undefined, .undefined, .undefined⟩

/-- The decoded envelope `{type: "private", from: A, to: B, text: T}`. -/
def privateEnvelope (A B T : String) : Decoded :=
  .object ⟨.str "private", .undefined, .str B, .str A, .str T⟩

/-- The decoded envelope `{type: "broadcast", from: A, text: T}`. -/
def broadcastEnvelope (A T : String) : Decoded :=
  .object ⟨.str "broadcast", .undefined, .undefined, .str A, .str T⟩

/-- A decoded object whose `type` is `"private"` or `"broadcast"`. -/
def isRouting : Decoded → Bool
  | .object data => data.type = .str "private" || data.type = .str "broadcast"
  | _ => false

/-- The connections a broadcast arriving on `ws` is addressed to, in the order
the loop visits them: the value of every own key, the sender's handle left out. -/
def others (users : Users) (ws : Conn) : List Conn :=
  (users.own.map Prod.fst).filterMap fun user =>
    match ownGet users.own user with
    | some d => if d ≠ ws then some d else none
    | none => none

/-- The sources settle the assignment `users[key] = ws`: the prototype is still
`Object.prototype`, or the key is `__proto__`, or the key is an own property. -/
def Users.settles (users : Users) (key : String) : Prop :=
  users.proto = none ∨ key = "__proto__" ∨ ownGet users.own key ≠ none

/-- Sending one line to a list of connections in turn, stopping at the first
`send` that throws; `done` is how the run ends when none throws. -/
def deliver (sendFails : Conn → Bool) (line : String) (done : Completion) :
    List Conn → List (Conn × String) × Completion
  | [] => ([], done)
  | d :: ds =>
    if sendFails d then ([(d, line)], .threw (.sendError d))
    else ((d, line) :: (deliver sendFails line done ds).1, (deliver sendFails line done ds).2)

/-- How the broadcast loop ends once every own key has been visited. -/
def loopEnd (users : Users) : Completion :=
  match users.proto with
  | none => .returned
  | some _ => .libraryDefined

/-- What a call of `send` does, as the statement `users[user].send(...)` sees
it. The statement discards whatever `send` returns, so of a call the handler
observes only whether it throws. -/
inductive SendResult where
  /-- The call returns and the line is on its way. -/
  | done
  /-- The call returns and reports a failure, in the value it returns or
  through a callback. -/
  | error
  /-- The call throws. -/
  | thrown
  deriving DecidableEq, Repr

/-- Whether the call throws. -/
def SendResult.throws : SendResult → Bool
  | .thrown => true
  | _ => false

/-! ## The client's terminal input handler (`src/client.js`) -/

/-- Code points that `String.prototype.trim` removes: white space and line
terminators. -/
def isJsSpace (c : Char) : Bool :=
  c.toNat ∈ [0x9, 0xA, 0xB, 0xC, 0xD, 0x20, 0xA0, 0x1680, 0x2028, 0x2029, 0x202F, 0x205F,
    0x3000, 0xFEFF] || (0x2000 ≤ c.toNat && c.toNat ≤ 0x200A)

/-- The method `trim`. -/
def jsTrim (s : String) : String :=
  ⟨((s.data.dropWhile isJsSpace).reverse.dropWhile isJsSpace).reverse⟩

/-- The method `startsWith`, on the characters of the two strings. -/
def startsWith : List Char → List Char → Bool
  | [], _ => true
  | _ :: _, [] => false
  | p :: ps, c :: cs => p = c && startsWith ps cs

/-- What the input handler does with one line. -/
inductive ClientAction where
  /-- The call `ws.send(JSON.stringify(data))`. -/
  | send (data : Envelope)
  /-- The call `console.log("Invalid command! Use /p or /b")`. -/
  | invalidCommand
  deriving DecidableEq, Repr

/-- The body of the `data` handler of `process.stdin`, after `trim`. -/
def handleText (username : String) (text : String) : ClientAction :=
  if startsWith "/p ".data text.data then
    let parts := text.data.splitOn ' '
    let toUser : Field :=
      match parts.get? 1 with
      | some u => .str ⟨u⟩
      | none => .undefined
    let message : String := ⟨[' '].intercalate (parts.drop 2)⟩
    .send { type := .str "private", username := .undefined, from_ := .str username,
            to_ := toUser, text := .str message }
  else if startsWith "/b ".data text.data then
    let message : String := ⟨text.data.drop 3⟩
    .send { type := .str "broadcast", username := .undefined, from_ := .str username,
            to_ := .undefined, text := .str message }
  else .invalidCommand

/-- The `data` handler of `process.stdin`. -/
def onInput (username : String) (input : String) : ClientAction :=
  handleText username (jsTrim input)

/-! ## Lemmas on the registry -/

theorem ownGet_ownReplace (key : String) (c : Conn) (l : List (String × Conn)) (j : String) :
    ownGet (ownReplace key c l) j =
      if j = key then (ownGet l key).map (fun _ => c) else ownGet l j := by
  induction l with
  | nil => simp [ownReplace, ownGet]
  | cons hd tl ih =>
    obtain ⟨k, v⟩ := hd
    by_cases hk : k = key
    · subst hk
      by_cases hj : j = k
      · subst hj; simp [ownReplace, ownGet]
      · have hj2 : ¬ k = j := fun h => hj h.symm
        simp [ownReplace, ownGet, hj, hj2]
    · by_cases hj : j = key
      · subst hj
        simp [ownReplace, ownGet, hk, ih]
      · by_cases hkj : k = j
        · simp [ownReplace, ownGet, hk, hkj, hj]
        · simp [ownReplace, ownGet, hk, hkj, hj, ih]

theorem ownGet_ownInsert (key : String) (c : Conn) (l : List (String × Conn)) (j : String)
    (hnew : ownGet l key = none) :
    ownGet (ownInsert key c l) j = if j = key then some c else ownGet l j := by
  induction l with
  | nil =>
    by_cases hj : j = key
    · subst hj; simp [ownInsert, ownGet]
    · have hj2 : ¬ key = j := fun h => hj h.symm
      simp [ownInsert, ownGet, hj, hj2]
  | cons hd tl ih =>
    obtain ⟨k, v⟩ := hd
    have hk : ¬ k = key := by
      intro h; subst h; simp [ownGet] at hnew
    have htl : ownGet tl key = none := by
      simpa [ownGet, hk] using hnew
    by_cases hb : enumeratedBefore key k = true
    · by_cases hj : j = key
      · subst hj; simp [ownInsert, hb, ownGet]
      · have hj2 : ¬ key = j := fun h => hj h.symm
        simp [ownInsert, hb, ownGet, hj, hj2]
    · by_cases hj : j = key
      · subst hj
        simp [ownInsert, hb, ownGet, hk, ih htl]
      · by_cases hkj : k = j
        · subst hkj
          simp [ownInsert, hb, ownGet, hj]
        · simp [ownInsert, hb, ownGet, hkj, hj, ih htl]

theorem Users.set_spec (users : Users) (key : String) (c : Conn) (h : users.settles key) :
    ∃ u, users.set key c = some u ∧ u.settles key ∧ u.get key = .found (.ws c) ∧
      ∀ J, J ≠ key → ∀ d, u.get J = .found (.ws d) → users.get J = .found (.ws d) := by
  obtain ⟨own, proto⟩ := users
  cases hg : ownGet own key with
  | some v =>
    refine ⟨⟨ownReplace key c own, proto⟩, by simp [Users.set, hg], ?_, ?_, ?_⟩
    · right; right
      simp [ownGet_ownReplace, hg]
    · simp [Users.get, ownGet_ownReplace, hg]
    · intro J hJ d hd
      simpa [Users.get, ownGet_ownReplace, hJ] using hd
  | none =>
    by_cases hp : key = "__proto__"
    · subst hp
      refine ⟨⟨own, some c⟩, by simp [Users.set, hg], Or.inr (Or.inl rfl), ?_, ?_⟩
      · simp [Users.get, hg]
      · intro J hJ d hd
        have hJ2 : ¬ J = "__proto__" := hJ
        cases hJg : ownGet own J with
        | some w =>
          simp [Users.get, hJg] at hd ⊢
          exact hd
        | none =>
          simp only [Users.get, hJg, hJ2, if_false] at hd
          split at hd <;> simp at hd
    · have hproto : proto = none := by
        rcases h with h | h | h
        · exact h
        · exact absurd h hp
        · exact absurd hg h
      subst hproto
      refine ⟨⟨ownInsert key c own, none⟩, by simp [Users.set, hg, hp], Or.inl rfl, ?_, ?_⟩
      · simp [Users.get, ownGet_ownInsert _ _ _ _ hg]
      · intro J hJ d hd
        simpa [Users.get, ownGet_ownInsert _ _ _ _ hg, hJ] using hd

theorem Users.set_proto (users : Users) (key : String) (c : Conn) (u : Users)
    (hset : users.set key c = some u) (hkey : key ≠ "__proto__") : u.proto = users.proto := by
  simp only [Users.set] at hset
  split at hset
  · simp only [Option.some.injEq] at hset
    rw [← hset]
  · rw [if_neg hkey] at hset
    split at hset
    · simp only [Option.some.injEq] at hset
      rw [← hset]
    · simp at hset

theorem ownGet_of_mem (l : List (String × Conn)) (k : String) (hk : k ∈ l.map Prod.fst) :
    ownGet l k ≠ none := by
  induction l with
  | nil => simp at hk
  | cons hd tl ih =>
    obtain ⟨k2, v⟩ := hd
    by_cases h : k2 = k
    · simp [ownGet, h]
    · have : k ∈ tl.map Prod.fst := by
        simp only [List.map_cons, List.mem_cons] at hk
        rcases hk with hk | hk
        · exact absurd hk.symm h
        · exact hk
      simpa [ownGet, h] using ih this

theorem mem_keys_of_ownGet (l : List (String × Conn)) (k : String) (d : Conn)
    (h : ownGet l k = some d) : k ∈ l.map Prod.fst := by
  induction l with
  | nil => simp [ownGet] at h
  | cons hd tl ih =>
    obtain ⟨k2, v⟩ := hd
    by_cases hk : k2 = k
    · simp [hk]
    · simp only [ownGet, hk, if_false] at h
      simp [ih h]

/-! ## Lemmas on the handler -/

theorem broadcastLoop_eq_deliver (sendFails : Conn → Bool) (users : Users) (ws : Conn)
    (data : Envelope) (line : String) (hline : broadcastLine data = some line)
    (ks : List String) (hks : ∀ k ∈ ks, ownGet users.own k ≠ none) :
    broadcastLoop sendFails users ws data ks =
      deliver sendFails line (loopEnd users) (ks.filterMap fun user =>
        match ownGet users.own user with
        | some d => if d ≠ ws then some d else none
        | none => none) := by
  induction ks with
  | nil =>
    simp only [broadcastLoop, List.filterMap_nil, deliver, loopEnd]
    cases users.proto <;> rfl
  | cons k rest ih =>
    have hrest : ∀ k ∈ rest, ownGet users.own k ≠ none :=
      fun x hx => hks x (List.mem_cons_of_mem _ hx)
    have hk := hks k (List.mem_cons_self _ _)
    cases hg : ownGet users.own k with
    | none => exact absurd hg hk
    | some d =>
      have hget : users.get k = .found (.ws d) := by simp [Users.get, hg]
      by_cases hd : d = ws
      · simp [broadcastLoop, hget, hd, List.filterMap_cons, hg, ih hrest]
      · by_cases hf : sendFails d = true
        · simp [broadcastLoop, hget, hd, List.filterMap_cons, hg, hline, deliver, hf]
        · simp [broadcastLoop, hget, hd, List.filterMap_cons, hg, hline, deliver, hf, ih hrest]

theorem onMessage_broadcast (sendFails : Conn → Bool) (users : Users) (ws : Conn)
    (data : Envelope) (line : String) (htype : data.type = .str "broadcast")
    (hline : broadcastLine data = some line) :
    onMessage sendFails users ws (.object data) =
      ⟨users, (deliver sendFails line (loopEnd users) (others users ws)).1, [],
        (deliver sendFails line (loopEnd users) (others users ws)).2⟩ := by
  have h := broadcastLoop_eq_deliver sendFails users ws data line hline
    (users.own.map Prod.fst) (fun k hk => ownGet_of_mem _ k hk)
  simp only [onMessage, htype, others]
  simp [h]

theorem deliver_all (sendFails : Conn → Bool) (line : String) (done : Completion)
    (ds : List Conn) (hok : ∀ d ∈ ds, sendFails d = false) :
    deliver sendFails line done ds = (ds.map fun d => (d, line), done) := by
  induction ds with
  | nil => rfl
  | cons d rest ih =>
    have hd := hok d (List.mem_cons_self _ _)
    have hrest := ih (fun x hx => hok x (List.mem_cons_of_mem _ hx))
    simp [deliver, hd, hrest]

theorem onMessage_join (sendFails : Conn → Bool) (users : Users) (ws : Conn) (I : String)
    (h : users.settles I) :
    ∃ u, users.set I ws = some u ∧
      onMessage sendFails users ws (joinEnvelope I) = ⟨u, [], [I ++ " joined"], .returned⟩ := by
  obtain ⟨u, hu, -⟩ := users.set_spec I ws h
  exact ⟨u, hu, by simp [onMessage, joinEnvelope, Field.toStr, hu]⟩

theorem broadcastLoop_sent_bound (sendFails : Conn → Bool) (users : Users) (ws : Conn)
    (data : Envelope) (ks : List String) :
    ∀ s ∈ (broadcastLoop sendFails users ws data ks).1, ∃ k, users.get k = .found (.ws s.1) := by
  induction ks with
  | nil =>
    intro s hs
    simp only [broadcastLoop] at hs
    cases hp : users.proto <;> simp [hp] at hs
  | cons k rest ih =>
    intro s hs
    cases hg : users.get k with
    | libraryDefined => simp [broadcastLoop, hg] at hs
    | found v =>
      cases v with
      | ws d =>
        by_cases hd : d = ws
        · simp only [broadcastLoop, hg, hd, ne_eq, not_true_eq_false, if_false] at hs
          exact ih s hs
        · cases hl : broadcastLine data with
          | none => simp [broadcastLoop, hg, hd, hl] at hs
          | some line =>
            by_cases hf : sendFails d = true
            · simp only [broadcastLoop, hg, hd, hl, hf, ne_eq, not_false_eq_true, if_true,
                List.mem_singleton] at hs
              exact ⟨k, by rw [hs]; exact hg⟩
            · simp only [broadcastLoop, hg, hd, hl, hf, ne_eq, not_false_eq_true, if_true,
                Bool.false_eq_true, if_false, List.mem_cons] at hs
              rcases hs with hs | hs
              · subst hs
                exact ⟨k, hg⟩
              · exact ih s hs
      | undefined => simp [broadcastLoop, hg] at hs
      | objectPrototype => simp [broadcastLoop, hg] at hs
      | builtin n => simp [broadcastLoop, hg] at hs
      | wsMethod n => simp [broadcastLoop, hg] at hs

theorem onMessage_sent_bound (sendFails : Conn → Bool) (users : Users) (ws : Conn)
    (msg : Decoded) :
    ∀ s ∈ (onMessage sendFails users ws msg).sent, ∃ k, users.get k = .found (.ws s.1) := by
  intro s hs
  cases msg with
  | syntaxError => simp [onMessage] at hs
  | null => simp [onMessage] at hs
  | nonObject => simp [onMessage] at hs
  | object data =>
    simp only [onMessage] at hs
    split at hs
    · split at hs
      · simp at hs
      · split at hs <;> simp at hs
    · split at hs
      · split at hs
        · simp at hs
        · rename_i key hkey
          split at hs
          · simp at hs
          · simp at hs
          · rename_i d hd
            split at hs
            · simp at hs
            · simp only [List.mem_singleton] at hs
              exact ⟨key, by rw [hs]; exact hd⟩
          · simp at hs
      · split at hs
        · exact broadcastLoop_sent_bound sendFails users ws data _ s hs
        · simp at hs

theorem onMessage_routing_users (sendFails : Conn → Bool) (users : Users) (ws : Conn)
    (msg : Decoded) (h : isRouting msg = true) :
    (onMessage sendFails users ws msg).users = users := by
  cases msg with
  | syntaxError => rfl
  | null => rfl
  | nonObject => rfl
  | object data =>
    have hj : data.type ≠ .str "join" := by
      intro e
      simp [isRouting, e] at h
    simp only [onMessage, hj, if_false]
    split
    · split
      · rfl
      · split <;> first | rfl | (split <;> rfl)
    · split <;> rfl

theorem runSent_avoids (sendFails : Conn → Bool) (c : Conn) (users : Users)
    (hfree : ∀ J, users.get J ≠ .found (.ws c))
    (later : List (Conn × Decoded)) (hlater : ∀ f ∈ later, isRouting f.2 = true) :
    ∀ s ∈ runSent sendFails users later, s.1 ≠ c := by
  induction later with
  | nil => intro s hs; simp [runSent] at hs
  | cons f rest ih =>
    obtain ⟨ws, msg⟩ := f
    have hmsg : isRouting msg = true := hlater (ws, msg) (List.mem_cons_self _ _)
    have hrest : ∀ f ∈ rest, isRouting f.2 = true :=
      fun x hx => hlater x (List.mem_cons_of_mem _ hx)
    intro s hs
    simp only [runSent, List.mem_append] at hs
    rcases hs with hs | hs
    · obtain ⟨k, hk⟩ := onMessage_sent_bound sendFails users ws msg s hs
      intro e
      exact hfree k (by rw [← e]; exact hk)
    · rw [onMessage_routing_users sendFails users ws msg hmsg] at hs
      exact ih hrest s hs

theorem get_plain_ws (bindings : List (String × Conn)) (I : String) (d : Conn) :
    Users.get ⟨bindings, none⟩ I = .found (.ws d) ↔ ownGet bindings I = some d := by
  cases hg : ownGet bindings I with
  | some v => simp [Users.get, hg]
  | none =>
    simp only [Users.get, hg]
    constructor
    · intro h
      split at h
      · simp at h
      · split at h <;> simp at h
    · intro h
      simp at h

theorem mem_others (users : Users) (ws d : Conn) :
    d ∈ others users ws ↔ (∃ k, ownGet users.own k = some d) ∧ d ≠ ws := by
  simp only [others, List.mem_filterMap]
  constructor
  · rintro ⟨k, -, hk⟩
    cases hg : ownGet users.own k with
    | none => simp [hg] at hk
    | some v =>
      simp only [hg] at hk
      by_cases hv : v = ws
      · simp [hv] at hk
      · simp only [ne_eq, hv, not_false_eq_true, if_true, Option.some.injEq] at hk
        subst hk
        exact ⟨⟨k, hg⟩, hv⟩
  · rintro ⟨⟨k, hk⟩, hd⟩
    exact ⟨k, mem_keys_of_ownGet _ k d hk, by simp [hk, hd]⟩

/-! ## Properties -/

/-- C1. In every registry state in which `users[B]` is the connection `b`, the
envelope `{type: "private", from: A, to: B, text: T}`, arriving on any
connection `c`, performs exactly one `send`: on `b`, with the payload
`A ++ " -> " ++ T`. Nothing is sent to any other connection. -/
theorem private_delivers_exact_line (sendFails : Conn → Bool) (users : Users) (c b : Conn)
    (A B T : String) (hB : users.get B = .found (.ws b)) :
    (onMessage sendFails users c (privateEnvelope A B T)).sent = [(b, A ++ " -> " ++ T)] := by
  simp [onMessage, privateEnvelope, Field.toStr, hB, privateLine]

theorem private_delivers_exact_line_witness :
    Users.get ⟨[("alice", 1), ("bob", 2)], none⟩ "bob" = .found (.ws 2) ∧
    (onMessage (fun _ => false) ⟨[("alice", 1), ("bob", 2)], none⟩ 1
      (privateEnvelope "alice" "bob" "hi")).sent = [(2, "alice" ++ " -> " ++ "hi")] :=
  ⟨by decide,
   private_delivers_exact_line (fun _ => false) ⟨[("alice", 1), ("bob", 2)], none⟩ 1 2
     "alice" "bob" "hi" (by decide)⟩

/-- C2 fails on the code once a connection has joined as `__proto__`. Connection
2 joins as `bob` and connection 1 as `__proto__`: the registry then has the own
key `bob` and connection 1 as prototype, and `users["__proto__"]` is connection
1. In a broadcast arriving on connection 0, the pass of the loop over the own
keys sends the line to connection 2 only; `__proto__` is not a key the loop
visits, and the loop goes on into the members inherited from connection 1
instead of returning. -/
theorem broadcast_misses_connection_bound_as_proto :
    (onMessage (fun _ => false)
      (onMessage (fun _ => false) Users.empty 2 (joinEnvelope "bob")).users 1
      (joinEnvelope "__proto__")).users = ⟨[("bob", 2)], some 1⟩ ∧
    Users.get ⟨[("bob", 2)], some 1⟩ "__proto__" = .found (.ws 1) ∧
    onMessage (fun _ => false) ⟨[("bob", 2)], some 1⟩ 0 (broadcastEnvelope "x" "hi") =
      ⟨⟨[("bob", 2)], some 1⟩, [(2, "x (to all) hi ")], [], .libraryDefined⟩ := by
  decide

/-- C3 fails on the code: the template literal of the broadcast branch ends with
a space, so for `from = "alice"` and `text = "yo"` the payload delivered is
`"alice (to all) yo "`, not `"alice" ++ " (to all) " ++ "yo"`. -/
theorem broadcast_line_has_trailing_space :
    (onMessage (fun _ => false) ⟨[("alice", 1), ("bob", 2)], none⟩ 1
      (broadcastEnvelope "alice" "yo")).sent = [(2, "alice (to all) yo ")] ∧
    "alice (to all) yo " ≠ "alice" ++ " (to all) " ++ "yo" := by
  decide

/-- C4 fails on the code: in the registry created by `{}`, with no join ever
dispatched, a private envelope addressed to `toString`, `constructor` or
`__proto__` finds an inherited value, and the call of its `send` raises a
`TypeError`; nothing is sent. -/
theorem private_to_inherited_name_throws :
    onMessage (fun _ => false) Users.empty 1 (privateEnvelope "alice" "toString" "hi") =
      ⟨Users.empty, [], [], .threw .typeError⟩ ∧
    onMessage (fun _ => false) Users.empty 1 (privateEnvelope "alice" "constructor" "hi") =
      ⟨Users.empty, [], [], .threw .typeError⟩ ∧
    onMessage (fun _ => false) Users.empty 1 (privateEnvelope "alice" "__proto__" "hi") =
      ⟨Users.empty, [], [], .threw .typeError⟩ := by
  decide

/-- C5 fails on the code in a registry whose prototype a join of `__proto__`
has replaced. After connection 0 has joined as `__proto__`, the assignment
`users["OPEN"] = ws` of a join for `OPEN` on connection 1, and again on
connection 2, is not settled by the registry: `OPEN` is no own key, so the
assignment is handed to the property of that name on the prototype chain of
connection 0. The sources alone bind `OPEN` to neither connection, and the
registry keeps no own key. -/
theorem join_through_replaced_prototype_binds_nothing :
    (onMessage (fun _ => false) Users.empty 0 (joinEnvelope "__proto__")).users = ⟨[], some 0⟩ ∧
    onMessage (fun _ => false) ⟨[], some 0⟩ 1 (joinEnvelope "OPEN") =
      ⟨⟨[], some 0⟩, [], [], .libraryDefined⟩ ∧
    onMessage (fun _ => false) ⟨[], some 0⟩ 2 (joinEnvelope "OPEN") =
      ⟨⟨[], some 0⟩, [], [], .libraryDefined⟩ ∧
    ownGet (onMessage (fun _ => false) ⟨[], some 0⟩ 2 (joinEnvelope "OPEN")).users.own "OPEN" =
      none := by
  decide

/-- C6, as stated, fails: on a frame that is not valid JSON the handler does not
return normally, it ends with the `SyntaxError` thrown by `JSON.parse`; on the
JSON text `null` it ends with a `TypeError`. -/
theorem malformed_frame_counterexample :
    (onMessage (fun _ => false) Users.empty 1 .syntaxError).completion ≠ .returned ∧
    (onMessage (fun _ => false) Users.empty 1 .null).completion ≠ .returned := by
  decide

/-- C6, amended. On a frame that is not valid JSON the handler raises the
`SyntaxError` of `JSON.parse`, and on JSON `null` it raises a `TypeError`; on
JSON that is a number, boolean, string or array it returns normally. In all
three cases nothing is sent, nothing is logged and the registry is unchanged. -/
theorem malformed_frame_outcome (sendFails : Conn → Bool) (users : Users) (c : Conn) :
    onMessage sendFails users c .syntaxError = ⟨users, [], [], .threw .syntaxError⟩ ∧
    onMessage sendFails users c .null = ⟨users, [], [], .threw .typeError⟩ ∧
    onMessage sendFails users c .nonObject = ⟨users, [], [], .returned⟩ :=
  ⟨rfl, rfl, rfl⟩

/-- C7 fails on the code once a connection has joined as `__proto__`.
Connections 2 and 3 join as `a` and `b`, then connection 1 joins as `__proto__`.
In a broadcast arriving on connection 0 in which `send` on connection 2 fails by
returning an error, the pass of the loop over the own keys sends the line to
connections 2 and 3, so the failure skips nobody; but connection 1, which
`users["__proto__"]` evaluates to, is not sent the line, and the loop goes on
into the members inherited from connection 1 instead of returning. -/
theorem broadcast_with_failed_send_over_replaced_prototype :
    (onMessage (fun _ => false)
      (onMessage (fun _ => false)
        (onMessage (fun _ => false) Users.empty 2 (joinEnvelope "a")).users 3
        (joinEnvelope "b")).users 1
      (joinEnvelope "__proto__")).users = ⟨[("a", 2), ("b", 3)], some 1⟩ ∧
    Users.get ⟨[("a", 2), ("b", 3)], some 1⟩ "__proto__" = .found (.ws 1) ∧
    onMessage (fun d => SendResult.throws (if d = 2 then .error else .done))
        ⟨[("a", 2), ("b", 3)], some 1⟩ 0 (broadcastEnvelope "x" "hi") =
      ⟨⟨[("a", 2), ("b", 3)], some 1⟩, [(2, "x (to all) hi "), (3, "x (to all) hi ")], [],
        .libraryDefined⟩ := by
  decide

/-- C8 fails on the code for the identity `__proto__`: in the registry created
by `{}`, the join binds no own property but replaces the prototype of `users`
with the connection, so the lookup of another identity, `send`, changes from
`undefined` to the connection's method, and a private envelope addressed to
`send`, silently dropped before the join, raises a `TypeError` after it. -/
theorem join_proto_changes_other_lookups :
    (onMessage (fun _ => false) Users.empty 1 (joinEnvelope "__proto__")).users = ⟨[], some 1⟩ ∧
    Users.get Users.empty "send" = .found .undefined ∧
    Users.get (onMessage (fun _ => false) Users.empty 1 (joinEnvelope "__proto__")).users "send" =
      .found (.wsMethod "send") ∧
    (onMessage (fun _ => false) Users.empty 2 (privateEnvelope "bob" "send" "hi")).completion =
      .returned ∧
    (onMessage (fun _ => false)
      (onMessage (fun _ => false) Users.empty 1 (joinEnvelope "__proto__")).users 2
      (privateEnvelope "bob" "send" "hi")).completion = .threw .typeError := by
  decide

/-- C9. For every decoded object whose `type` is none of `"join"`, `"private"`
and `"broadcast"` (an absent `type` included), in every registry state and on
every connection, the handler returns normally, sends nothing, logs nothing and
leaves the registry unchanged. -/
theorem unknown_type_is_dropped (sendFails : Conn → Bool) (users : Users) (c : Conn)
    (data : Envelope) (hjoin : data.type ≠ .str "join") (hprivate : data.type ≠ .str "private")
    (hbroadcast : data.type ≠ .str "broadcast") :
    onMessage sendFails users c (.object data) = ⟨users, [], [], .returned⟩ := by
  simp [onMessage, hjoin, hprivate, hbroadcast]

theorem unknown_type_is_dropped_witness :
    Field.undefined ≠ .str "join" ∧ Field.undefined ≠ .str "private" ∧
    Field.undefined ≠ .str "broadcast" ∧
    onMessage (fun _ => false) ⟨[("a", 1)], none⟩ 2
        (.object ⟨.undefined, .str "a", .str "a", .str "b", .str "hi"⟩) =
      ⟨⟨[("a", 1)], none⟩, [], [], .returned⟩ :=
  ⟨by decide, by decide, by decide,
   unknown_type_is_dropped (fun _ => false) ⟨[("a", 1)], none⟩ 2
     ⟨.undefined, .str "a", .str "a", .str "b", .str "hi"⟩ (by decide) (by decide) (by decide)⟩

theorem splitOn_private_command (u m : List Char) (hspace : ' ' ∉ u) :
    (['/', 'p', ' '] ++ u ++ [' '] ++ m).splitOn ' ' = ['/', 'p'] :: u :: m.splitOn ' ' := by
  have h1 : ∀ x ∈ ['/', 'p'], ¬ ((fun c : Char => c == ' ') x = true) := by decide
  have h2 : ∀ x ∈ u, ¬ ((fun c : Char => c == ' ') x = true) := by
    intro x hx hxs
    have : x = ' ' := by simpa using hxs
    exact hspace (this ▸ hx)
  have e : ['/', 'p', ' '] ++ u ++ [' '] ++ m = ['/', 'p'] ++ ' ' :: (u ++ ' ' :: m) := by simp
  rw [e, List.splitOn, List.splitOnP_first (fun c : Char => c == ' ') _ h1 ' ' (by decide),
    List.splitOnP_first (fun c : Char => c == ' ') _ h2 ' ' (by decide)]
  rfl

/-- C10. For every recipient name `u` without a space character and every
message `m`: when the trimmed terminal input is `"/p " ++ u ++ " " ++ m`, the
client sends one envelope, `{type: "private", from: username, to: u, text: m}`;
the parts of the split text after the second, joined again with single spaces,
are exactly `m`. -/
theorem private_command_sends_message (username u m : String) (input : String)
    (hspace : ' ' ∉ u.data) (htrim : jsTrim input = "/p " ++ u ++ " " ++ m) :
    onInput username input =
        .send ⟨.str "private", .undefined, .str u, .str username, .str m⟩ ∧
      [' '].intercalate (((jsTrim input).data.splitOn ' ').drop 2) = m.data := by
  have hdata : ("/p " ++ u ++ " " ++ m).data = ['/', 'p', ' '] ++ u.data ++ [' '] ++ m.data := by
    simp [String.data_append]
  have hsplit := splitOn_private_command u.data m.data hspace
  have hjoin : [' '].intercalate (m.data.splitOn ' ') = m.data :=
    List.intercalate_splitOn m.data ' '
  have hstart : startsWith "/p ".data (['/', 'p', ' '] ++ u.data ++ [' '] ++ m.data) = true := by
    simp [startsWith]
  constructor
  · simp only [onInput, handleText, htrim, hdata, hstart, hsplit, if_true, List.get?,
      List.drop, hjoin]
  · rw [htrim, hdata, hsplit]
    exact hjoin

theorem private_command_sends_message_witness :
    ' ' ∉ "shizuka".data ∧ jsTrim "/p shizuka hello  there\n" = "/p " ++ "shizuka" ++ " " ++ "hello  there" ∧
    onInput "nobita" "/p shizuka hello  there\n" =
      .send ⟨.str "private", .undefined, .str "shizuka", .str "nobita", .str "hello  there"⟩ :=
  ⟨by decide, by decide,
   (private_command_sends_message "nobita" "shizuka" "hello  there" "/p shizuka hello  there\n"
     (by decide) (by decide)).1⟩

/-! ## Further properties -/

/-- X1. For a registry holding any bindings under the original prototype, and
provided no `send` throws: a broadcast arriving on connection `c` calls `send`
on a connection `d` if and only if `d` is the value of `users[I]` for some
identity `I` and `d` is not `c`, compared as handles. -/
theorem broadcast_reaches_exactly_others (sendFails : Conn → Bool)
    (bindings : List (String × Conn)) (c : Conn) (A T : String)
    (hsend : ∀ d, sendFails d = false) (d : Conn) :
    (∃ line, (d, line) ∈
        (onMessage sendFails ⟨bindings, none⟩ c (broadcastEnvelope A T)).sent) ↔
      ((∃ I, Users.get ⟨bindings, none⟩ I = .found (.ws d)) ∧ d ≠ c) := by
  have hline : broadcastLine ⟨.str "broadcast", .undefined, .undefined, .str A, .str T⟩ =
      some (A ++ " (to all) " ++ T ++ " ") := by
    simp [broadcastLine, Field.toStr]
  have hrun := onMessage_broadcast sendFails ⟨bindings, none⟩ c _ _ rfl hline
  have hall := deliver_all sendFails (A ++ " (to all) " ++ T ++ " ")
    (loopEnd ⟨bindings, none⟩) (others ⟨bindings, none⟩ c) (fun x _ => hsend x)
  simp only [broadcastEnvelope, hrun, hall, List.mem_map, Prod.mk.injEq]
  constructor
  · rintro ⟨line, x, hx, rfl, -⟩
    obtain ⟨⟨k, hk⟩, hd⟩ := (mem_others _ c x).1 hx
    exact ⟨⟨k, (get_plain_ws bindings k x).2 hk⟩, hd⟩
  · rintro ⟨⟨I, hI⟩, hd⟩
    exact ⟨_, d, (mem_others _ c d).2 ⟨⟨I, (get_plain_ws bindings I d).1 hI⟩, hd⟩, rfl, rfl⟩

theorem broadcast_reaches_exactly_others_witness :
    (∀ d, (fun _ : Conn => false) d = false) ∧
    ((∃ line, ((2 : Conn), line) ∈
        (onMessage (fun _ => false) ⟨[("a", 1), ("b", 2)], none⟩ 1
          (broadcastEnvelope "a" "yo")).sent) ↔
      ((∃ I, Users.get ⟨[("a", 1), ("b", 2)], none⟩ I = .found (.ws 2)) ∧ (2 : Conn) ≠ 1)) :=
  ⟨fun _ => rfl,
   broadcast_reaches_exactly_others (fun _ => false) [("a", 1), ("b", 2)] 1 "a" "yo"
     (fun _ => rfl) 2⟩

/-- X2. Start from a registry holding any bindings under the original prototype,
in which connection `c1` is bound under no identity other than `A`, and let `A`
be an identity other than `__proto__`. After a join for `A` on `c1` and then a
join for `A` on a different connection `c2`, both of which return normally, the
prototype is still the original one, `users[A]` is `c2`, no identity is bound to
`c1`, and in every later sequence of private and broadcast envelopes, whatever
connections they arrive on, no `send` is called on `c1`. -/
theorem rejoin_displaces_first_connection (sendFails : Conn → Bool)
    (bindings : List (String × Conn)) (A : String) (c1 c2 : Conn) (hne : c1 ≠ c2)
    (hA : A ≠ "__proto__")
    (hother : ∀ J, J ≠ A → Users.get ⟨bindings, none⟩ J ≠ .found (.ws c1))
    (later : List (Conn × Decoded)) (hlater : ∀ f ∈ later, isRouting f.2 = true) :
    (onMessage sendFails ⟨bindings, none⟩ c1 (joinEnvelope A)).completion = .returned ∧
    (onMessage sendFails (onMessage sendFails ⟨bindings, none⟩ c1 (joinEnvelope A)).users c2
      (joinEnvelope A)).completion = .returned ∧
    (onMessage sendFails (onMessage sendFails ⟨bindings, none⟩ c1 (joinEnvelope A)).users c2
      (joinEnvelope A)).users.proto = none ∧
    (onMessage sendFails (onMessage sendFails ⟨bindings, none⟩ c1 (joinEnvelope A)).users c2
      (joinEnvelope A)).users.get A = .found (.ws c2) ∧
    (∀ J, (onMessage sendFails (onMessage sendFails ⟨bindings, none⟩ c1 (joinEnvelope A)).users c2
      (joinEnvelope A)).users.get J ≠ .found (.ws c1)) ∧
    ∀ s ∈ runSent sendFails
        (onMessage sendFails (onMessage sendFails ⟨bindings, none⟩ c1 (joinEnvelope A)).users c2
          (joinEnvelope A)).users later,
      s.1 ≠ c1 := by
  have h0 : Users.settles ⟨bindings, none⟩ A := Or.inl rfl
  obtain ⟨u1, hset1, hsettles1, -, hkeep1⟩ := Users.set_spec ⟨bindings, none⟩ A c1 h0
  obtain ⟨u2, hset2, -, hget2, hkeep2⟩ := Users.set_spec u1 A c2 hsettles1
  obtain ⟨v1, hv1, hrun1⟩ := onMessage_join sendFails ⟨bindings, none⟩ c1 A h0
  have e1 : v1 = u1 := Option.some.inj (hv1.symm.trans hset1)
  subst e1
  obtain ⟨v2, hv2, hrun2⟩ := onMessage_join sendFails v1 c2 A hsettles1
  have e2 : v2 = u2 := Option.some.inj (hv2.symm.trans hset2)
  subst e2
  have hfree : ∀ J, v2.get J ≠ .found (.ws c1) := by
    intro J hJ
    by_cases hJA : J = A
    · subst hJA
      rw [hget2] at hJ
      exact hne (by simpa using hJ.symm)
    · exact hother J hJA (hkeep1 J hJA c1 (hkeep2 J hJA c1 hJ))
  have hproto : v2.proto = none := by
    rw [Users.set_proto v1 A c2 v2 hv2 hA, Users.set_proto ⟨bindings, none⟩ A c1 v1 hv1 hA]
  rw [hrun1]
  simp only [hrun2]
  exact ⟨trivial, trivial, hproto, hget2, hfree,
    runSent_avoids sendFails c1 v2 hfree later hlater⟩

theorem rejoin_displaces_first_connection_witness :
    (1 : Conn) ≠ 2 ∧ "ann" ≠ "__proto__" ∧
    (∀ J, J ≠ "ann" → Users.get ⟨[("bob", 3)], none⟩ J ≠ .found (.ws 1)) ∧
    (∀ f ∈ [((3 : Conn), privateEnvelope "bob" "ann" "hi"), (2, broadcastEnvelope "ann" "yo")],
      isRouting f.2 = true) ∧
    (onMessage (fun _ => false)
      (onMessage (fun _ => false) ⟨[("bob", 3)], none⟩ 1 (joinEnvelope "ann")).users 2
      (joinEnvelope "ann")).users.get "ann" = .found (.ws 2) ∧
    ∀ s ∈ runSent (fun _ => false)
        (onMessage (fun _ => false)
          (onMessage (fun _ => false) ⟨[("bob", 3)], none⟩ 1 (joinEnvelope "ann")).users 2
          (joinEnvelope "ann")).users
        [((3 : Conn), privateEnvelope "bob" "ann" "hi"), (2, broadcastEnvelope "ann" "yo")],
      s.1 ≠ 1 :=
  have hother : ∀ J, J ≠ "ann" → Users.get ⟨[("bob", 3)], none⟩ J ≠ .found (.ws 1) := by
    intro J _ h
    have h2 := (get_plain_ws [("bob", 3)] J 1).1 h
    by_cases hb : "bob" = J
    · simp [ownGet, hb] at h2
    · simp [ownGet, hb] at h2
  have hlater : ∀ f ∈ [((3 : Conn), privateEnvelope "bob" "ann" "hi"),
      (2, broadcastEnvelope "ann" "yo")], isRouting f.2 = true := by
    decide
  have h := rejoin_displaces_first_connection (fun _ => false) [("bob", 3)] "ann" 1 2
    (by decide) (by decide) hother _ hlater
  ⟨by decide, by decide, hother, hlater, h.2.2.2.1, h.2.2.2.2.2⟩

/-- X3. For a registry holding any bindings under the original prototype: when
no `send` throws, so that a failed `send` is one that returns an error, a
broadcast arriving on connection `c` sends the line to every connection bound
to an own key and different from `c`, in the order of the loop, whichever of the
calls fail; the registry is unchanged and the handler returns normally. -/
theorem returned_error_skips_nobody (send : Conn → SendResult)
    (bindings : List (String × Conn)) (c : Conn) (A T : String)
    (hreturns : ∀ d, send d ≠ .thrown) :
    onMessage (fun d => (send d).throws) ⟨bindings, none⟩ c (broadcastEnvelope A T) =
      ⟨⟨bindings, none⟩,
        (others ⟨bindings, none⟩ c).map (fun d => (d, A ++ " (to all) " ++ T ++ " ")), [],
        .returned⟩ := by
  have hline : broadcastLine ⟨.str "broadcast", .undefined, .undefined, .str A, .str T⟩ =
      some (A ++ " (to all) " ++ T ++ " ") := by
    simp [broadcastLine, Field.toStr]
  have hquiet : ∀ d ∈ others ⟨bindings, none⟩ c, (fun d => (send d).throws) d = false := by
    intro d _
    have hd := hreturns d
    cases hs : send d <;> simp [SendResult.throws, hs] at hd ⊢
  rw [broadcastEnvelope, onMessage_broadcast _ ⟨bindings, none⟩ c _ _ rfl hline,
    deliver_all _ _ _ _ hquiet]
  rfl

theorem returned_error_skips_nobody_witness :
    (∀ d : Conn, (if d = 2 then SendResult.error else SendResult.done) ≠ .thrown) ∧
    onMessage (fun d => SendResult.throws (if d = 2 then .error else .done))
        ⟨[("a", 1), ("b", 2), ("c", 3)], none⟩ 1 (broadcastEnvelope "a" "yo") =
      ⟨⟨[("a", 1), ("b", 2), ("c", 3)], none⟩,
        (others ⟨[("a", 1), ("b", 2), ("c", 3)], none⟩ 1).map
          (fun d => (d, "a" ++ " (to all) " ++ "yo" ++ " ")), [], .returned⟩ :=
  have hreturns : ∀ d : Conn, (if d = 2 then SendResult.error else SendResult.done) ≠ .thrown := by
    intro d
    split <;> decide
  ⟨hreturns,
   returned_error_skips_nobody (fun d => if d = 2 then .error else .done)
     [("a", 1), ("b", 2), ("c", 3)] 1 "a" "yo" hreturns⟩

end ChatRelay
